import Mathlib

/-!
# Verification of `flame-utils` core logic

A shallow embedding, in Lean 4, of the core logic of the `flame-utils`
Python package (beam-state moment algebra, alias resolution, source-element
encoding, element lookup filtering and the lattice-file patch scanner),
together with theorems settling the specification's testable claims.

Conventions used throughout:

* Python floats are modelled as real numbers (`ℝ`); `numpy.sqrt` is modelled
  by `Real.sqrt`, which agrees with it on nonnegative arguments (on negative
  arguments numpy produces NaN while `Real.sqrt` returns 0, so theorems that
  depend on square roots carry nonnegativity hypotheses on the quantities
  the code takes roots of).
* Python strings are modelled as `List Char`; numpy arrays indexed
  `[7][7][nCS]` become functions `Fin 7 → Fin 7 → ℕ → ℝ`.
* A Python method that can take an early `return None` error path is
  modelled as an `Option`-valued function (`none` = the logged-error
  `return None` path); functions whose every path executes a plain
  `return` are additionally wrapped in `PyCallResult` where the
  distinction between returning and raising an exception matters.
-/

namespace FlameUtils

/-- A Python string, modelled as its list of characters. -/
abbrev PyS := List Char

/-- Outcome of calling a Python function: either a normal return of a value,
or an uncaught exception propagating out of the call. -/
inductive PyCallResult (α : Type) where
  | ret : α → PyCallResult α
  | exc : PyCallResult α
  deriving DecidableEq

/-! ## Beam state data model (`flame_utils/core/state.py`)

`BeamState` wraps the FLAME internal state.  The fields used by the moment
algebra are the per-charge-state correlation tensor `moment1`
(`[7][7][nCS]`, symmetric in the first two axes), the weighted-average
tensor `moment1_env`, the per-charge-state centroid `moment0` (`[7][nCS]`),
the charge-state arrays `IonZ`/`IonQ` and the reference-particle scalars.
`nCS` is the number of charge states (`len(self.bg)`). -/

/-- Correlation tensor: `moment1[i, j, cs]`. -/
abbrev Mom := Fin 7 → Fin 7 → ℕ → ℝ

structure BeamState where
  moment1 : Mom
  moment1_env : Fin 7 → Fin 7 → ℝ
  moment0 : Fin 7 → ℕ → ℝ
  IonZ : List ℝ
  IonQ : List ℝ
  ref_IonEk : ℝ
  ref_IonEs : ℝ
  ref_bg : ℝ
  nCS : ℕ

/-! ### Per-axis derived optics accessors

Each of the following mirrors one `@property` of `BeamState`.  The Python
properties build a list over `range(len(self.bg))` and the claims read one
entry `[cs]`; here each accessor is the function of the charge-state index
`cs` giving that entry (reading `[cs]` is only meaningful for
`cs < nCS`, which the theorems carry as a hypothesis).
`np.linalg.det` of a 2×2 block is the exact 2×2 determinant. -/

/-- `xemittance_all[i] = sqrt(det(moment1[0:2, 0:2, i]))*1e3`. -/
noncomputable def xemittance_all (st : BeamState) (i : ℕ) : ℝ :=
  Real.sqrt (st.moment1 0 0 i * st.moment1 1 1 i -
    st.moment1 0 1 i * st.moment1 1 0 i) * 1e3

/-- `yemittance_all[i] = sqrt(det(moment1[2:4, 2:4, i]))*1e3`. -/
noncomputable def yemittance_all (st : BeamState) (i : ℕ) : ℝ :=
  Real.sqrt (st.moment1 2 2 i * st.moment1 3 3 i -
    st.moment1 2 3 i * st.moment1 3 2 i) * 1e3

/-- `zemittance_all[i] = sqrt(det(moment1[4:6, 4:6, i]))` (no unit scale). -/
noncomputable def zemittance_all (st : BeamState) (i : ℕ) : ℝ :=
  Real.sqrt (st.moment1 4 4 i * st.moment1 5 5 i -
    st.moment1 4 5 i * st.moment1 5 4 i)

/-- `xtwiss_beta_all[i] = moment1[0, 0, i]/xeps_all[i]`
(`xeps_all` is the class-level alias of `xemittance_all`). -/
noncomputable def xtwiss_beta_all (st : BeamState) (i : ℕ) : ℝ :=
  st.moment1 0 0 i / xemittance_all st i

/-- `ytwiss_beta_all[i] = moment1[2, 2, i]/yeps_all[i]`. -/
noncomputable def ytwiss_beta_all (st : BeamState) (i : ℕ) : ℝ :=
  st.moment1 2 2 i / yemittance_all st i

/-- `ztwiss_beta_all[i] = moment1[4, 4, i]/zeps_all[i]`. -/
noncomputable def ztwiss_beta_all (st : BeamState) (i : ℕ) : ℝ :=
  st.moment1 4 4 i / zemittance_all st i

/-- `xtwiss_alpha_all[i] = -moment1[0, 1, i]/xeps_all[i]*1e3`. -/
noncomputable def xtwiss_alpha_all (st : BeamState) (i : ℕ) : ℝ :=
  -st.moment1 0 1 i / xemittance_all st i * 1e3

/-- `ytwiss_alpha_all[i] = -moment1[2, 3, i]/yeps_all[i]*1e3`. -/
noncomputable def ytwiss_alpha_all (st : BeamState) (i : ℕ) : ℝ :=
  -st.moment1 2 3 i / yemittance_all st i * 1e3

/-- `ztwiss_alpha_all[i] = -moment1[4, 5, i]/zeps_all[i]` (no unit scale). -/
noncomputable def ztwiss_alpha_all (st : BeamState) (i : ℕ) : ℝ :=
  -st.moment1 4 5 i / zemittance_all st i

/-- The coordinate argument of `set_twiss` (`'x'`, `'y'` or `'z'`; any other
string takes the logged-error `return None` branch of the source and is
excluded by this type). -/
inductive TCoor where
  | x | y | z
  deriving DecidableEq

/-- `getattr(self, coor + 'emittance_all')[cs]`. -/
noncomputable def coorEmittanceAll (st : BeamState) : TCoor → ℕ → ℝ
  | .x => xemittance_all st
  | .y => yemittance_all st
  | .z => zemittance_all st

/-- `getattr(self, coor + 'twiss_beta_all')[cs]`. -/
noncomputable def coorTwissBetaAll (st : BeamState) : TCoor → ℕ → ℝ
  | .x => xtwiss_beta_all st
  | .y => ytwiss_beta_all st
  | .z => ztwiss_beta_all st

/-- `getattr(self, coor + 'twiss_alpha_all')[cs]`. -/
noncomputable def coorTwissAlphaAll (st : BeamState) : TCoor → ℕ → ℝ
  | .x => xtwiss_alpha_all st
  | .y => ytwiss_alpha_all st
  | .z => ztwiss_alpha_all st

/-! ### Coupling terms (`_couple_index`, `get_couple`, `set_couple`) -/

/-- The coordinate-label table `crd` of `BeamState._couple_index`. -/
def crd : List (PyS × Fin 7) :=
  [("x".data, 0), ("xp".data, 1), ("y".data, 2),
   ("yp".data, 3), ("z".data, 4), ("zp".data, 5)]

/-- `_couple_index` on the string/string path: both labels must be in
`crd`, and equal resolved indices are the logged-error `return None`
path.  (For two distinct labels the resolved indices are automatically
distinct, so checking `c1 == c2` before or after resolution is
equivalent.) -/
def couple_index_s (coor1 coor2 : PyS) : Option (Fin 7 × Fin 7) :=
  match List.lookup coor1 crd, List.lookup coor2 crd with
  | some c1, some c2 => if c1 = c2 then none else some (c1, c2)
  | _, _ => none

/-- `_couple_index` on the int/int path: `c1 = int(coor1)` etc., followed
by the `c1 == c2` check.  Indices ≥ 7 would make the subsequent numpy
indexing raise; the embedding restricts to `Fin 7`. -/
def couple_index_i (c1 c2 : Fin 7) : Option (Fin 7 × Fin 7) :=
  if c1 = c2 then none else some (c1, c2)

/-- The matrix slice `get_couple` reads:
`moment1_env` if `cs == -1`, else `moment1[:, :, cs]`. -/
noncomputable def momSlice (st : BeamState) (cs : ℤ) : Fin 7 → Fin 7 → ℝ :=
  if cs = -1 then st.moment1_env else fun i j => st.moment1 i j cs.toNat

/-- The body of `get_couple` after index resolution:
`fac = np.sqrt(mat[c1, c1]*mat[c2, c2]);`
`term = mat[c1, c2]/fac if fac != 0.0 else 0.0`. -/
noncomputable def couple_term (mat : Fin 7 → Fin 7 → ℝ) (c1 c2 : Fin 7) : ℝ :=
  let fac := Real.sqrt (mat c1 c1 * mat c2 c2)
  if fac ≠ 0 then mat c1 c2 / fac else 0

/-- `BeamState.get_couple(coor1, coor2, cs)` with string coordinates;
`none` is the logged-error `return None` path of `_couple_index`. -/
noncomputable def get_couple (st : BeamState) (coor1 coor2 : PyS) (cs : ℤ) :
    Option ℝ :=
  (couple_index_s coor1 coor2).map fun p => couple_term (momSlice st cs) p.1 p.2

/-- `BeamState.get_couple(c1, c2, cs)` with integer coordinates. -/
noncomputable def get_couple_idx (st : BeamState) (c1 c2 : Fin 7) (cs : ℤ) :
    Option ℝ :=
  (couple_index_i c1 c2).map fun p => couple_term (momSlice st cs) p.1 p.2

/-- Every code path of `get_couple` executes a plain `return` (the invalid
input path logs via `_LOGGER.error` and returns `None`; no statement in
`get_couple`/`_couple_index` raises for string inputs), so the call outcome
is always a normal return. -/
noncomputable def get_couple_call (st : BeamState) (coor1 coor2 : PyS) (cs : ℤ) :
    PyCallResult (Option ℝ) :=
  .ret (get_couple st coor1 coor2 cs)

/-- Single in-place write `mat[a, b, cs] = v` on the tensor. -/
def upd3 (M : Mom) (a b : Fin 7) (cs : ℕ) (v : ℝ) : Mom :=
  fun i j k => if i = a ∧ j = b ∧ k = cs then v else M i j k

/-- The tensor mutation of `set_couple` after index resolution:
`fac = np.sqrt(mat[c1, c1, cs]*mat[c2, c2, cs]);`
`mat[c1, c2, cs] = mat[c2, c1, cs] = value*fac` (the right-hand side is
evaluated once, against the tensor before either write). -/
noncomputable def set_couple_mat (M : Mom) (c1 c2 : Fin 7) (v : ℝ) (cs : ℕ) :
    Mom :=
  let w := v * Real.sqrt (M c1 c1 cs * M c2 c2 cs)
  upd3 (upd3 M c1 c2 cs w) c2 c1 cs w

/-- `BeamState.set_couple(c1, c2, value, cs)` with integer coordinates:
`none` is the logged-error `return None` path (equal coordinates), which
leaves the state untouched; `some st'` is the state after the in-place
tensor update. -/
noncomputable def set_couple (st : BeamState) (c1 c2 : Fin 7) (v : ℝ) (cs : ℕ) :
    Option BeamState :=
  match couple_index_i c1 c2 with
  | none => none
  | some p => some { st with moment1 := set_couple_mat st.moment1 p.1 p.2 v cs }

/-! ### `set_twiss` (`state.py` lines 846–923)

Optional keyword arguments are `Option ℝ` (`none` = the Python default
`None`).  The method body first resolves emittance, then beta (erroring if
both `beta` and `rmssize` were supplied), then alpha, captures the existing
coupling terms between the edited axis and the four other coordinates,
overwrites the 2×2 diagonal block, stores the tensor, and re-applies the
captured coupling values through `set_couple`. -/

/-- Emittance resolution (lines 870–880): use `emittance` if given
(`nemittance` is then ignored with a warning); with neither, keep the
current per-axis emittance; with only `nemittance`, divide by
`bg = sqrt(gam² - 1)`, `gam = 1 + ref_IonEk/ref_IonEs`. -/
noncomputable def resolveEps (st : BeamState) (coor : TCoor)
    (emittance nemittance : Option ℝ) (cs : ℕ) : ℝ :=
  match emittance, nemittance with
  | none, none => coorEmittanceAll st coor cs
  | some e, _ => e
  | none, some neps =>
      let gam := 1.0 + st.ref_IonEk / st.ref_IonEs
      let bg := Real.sqrt (gam * gam - 1.0)
      neps / bg

/-- Beta resolution (lines 882–890) on the non-error paths: with neither
argument, keep the current per-axis Twiss beta; with only `rmssize`,
`beta = rmssize²/eps`; with `beta` given, use it (`float(beta)`). -/
noncomputable def resolveBeta (st : BeamState) (coor : TCoor)
    (beta rmssize : Option ℝ) (eps : ℝ) (cs : ℕ) : ℝ :=
  match beta, rmssize with
  | none, none => coorTwissBetaAll st coor cs
  | none, some r => r * r / eps
  | some b, _ => b

/-- Alpha resolution (line 892): default to the current per-axis value. -/
noncomputable def resolveAlpha (st : BeamState) (coor : TCoor)
    (alpha : Option ℝ) (cs : ℕ) : ℝ :=
  alpha.getD (coorTwissAlphaAll st coor cs)

/-- The `idx` list of the chosen branch of `set_twiss`. -/
def twissIdx : TCoor → List (Fin 7)
  | .x => [0, 1]
  | .y => [2, 3]
  | .z => [4, 5]

/-- The `jdx` list of the chosen branch of `set_twiss`. -/
def twissJdx : TCoor → List (Fin 7)
  | .x => [2, 3, 4, 5]
  | .y => [0, 1, 4, 5]
  | .z => [0, 1, 2, 3]

/-- First coordinate of the edited 2×2 block (`0`, `2` or `4`). -/
def twissA : TCoor → Fin 7
  | .x => 0
  | .y => 2
  | .z => 4

/-- Second coordinate of the edited 2×2 block (`1`, `3` or `5`). -/
def twissAp : TCoor → Fin 7
  | .x => 1
  | .y => 3
  | .z => 5

/-- Unit scale on the off-diagonal block entry (`1e-3` for `x`/`y`,
`1` for `z`). -/
noncomputable def twissK1 : TCoor → ℝ
  | .x => 1e-3
  | .y => 1e-3
  | .z => 1

/-- Unit scale on the divergence diagonal entry (`1e-6` for `x`/`y`,
`1` for `z`). -/
noncomputable def twissK2 : TCoor → ℝ
  | .x => 1e-6
  | .y => 1e-6
  | .z => 1

/-- `BeamState.set_twiss(coor, alpha, beta, rmssize, emittance, nemittance,
cs)`.  `none` is a logged-error `return None` path (both `beta` and
`rmssize` supplied), taken before any write to `moment1`; `some st'` is the
state after the full update. -/
noncomputable def set_twiss (st : BeamState) (coor : TCoor)
    (alpha beta rmssize emittance nemittance : Option ℝ) (cs : ℕ) :
    Option BeamState :=
  let eps := resolveEps st coor emittance nemittance cs
  match beta, rmssize with
  | some _, some _ => none
  | b?, r? =>
    let β := resolveBeta st coor b? r? eps cs
    let α := resolveAlpha st coor alpha cs
    let idx := twissIdx coor
    let jdx := twissJdx coor
    -- cpt = [[self.get_couple(i, j, cs=cs) for i in idx] for j in jdx]
    -- (i ∈ idx and j ∈ jdx are always distinct, so `get_couple` reduces to
    -- its `couple_term` body)
    let cpt := jdx.map fun j => idx.map fun i =>
      couple_term (momSlice st cs) i j
    let a := twissA coor
    let a' := twissAp coor
    -- mat[a, a, cs] = beta*eps
    -- mat[a, a', cs] = mat[a', a, cs] = -alpha*eps*k1
    -- mat[a', a', cs] = (1.0 + alpha*alpha)/beta*eps*k2
    let M1 := upd3 st.moment1 a a cs (β * eps)
    let M2 := upd3 M1 a a' cs (-α * eps * twissK1 coor)
    let M3 := upd3 M2 a' a cs (-α * eps * twissK1 coor)
    let M4 := upd3 M3 a' a' cs ((1.0 + α * α) / β * eps * twissK2 coor)
    -- self._states.moment1 = mat, then
    -- for j, cp in zip(jdx, cpt): for i, v in zip(idx, cp):
    --     self.set_couple(i, j, v, cs=cs)
    let Mfinal := (jdx.zip cpt).foldl
      (fun m jc => (idx.zip jc.2).foldl
        (fun m2 iv => set_couple_mat m2 iv.1 jc.1 iv.2 cs) m) M4
    some { st with moment1 := Mfinal }

/-- The caller's view of the beam state after a `set_twiss` call: Python
mutates `self` in place, and on the logged-error paths the method returns
before any write to `moment1`, so the state is unchanged there. -/
noncomputable def set_twiss_run (st : BeamState) (coor : TCoor)
    (alpha beta rmssize emittance nemittance : Option ℝ) (cs : ℕ) :
    BeamState :=
  (set_twiss st coor alpha beta rmssize emittance nemittance cs).getD st

/-! ### Evaluation lemmas for the `set_twiss` tensor update

The re-application loop of `set_twiss` is a nested fold of
`set_couple_mat` writes.  `innerFold`/`reapply` name the two fold layers,
and the lemmas below locate each entry of the resulting tensor. -/

/-- One pass of the inner loop `for i, v in zip(idx, cp)`. -/
noncomputable def innerFold (M : Mom) (idx : List (Fin 7)) (j : Fin 7)
    (capf : Fin 7 → ℝ) (cs : ℕ) : Mom :=
  idx.foldl (fun m i => set_couple_mat m i j (capf i) cs) M

/-- The full re-application loop `for j, cp in zip(jdx, cpt)`. -/
noncomputable def reapply (M : Mom) (idx jdx : List (Fin 7))
    (cap : Fin 7 → Fin 7 → ℝ) (cs : ℕ) : Mom :=
  jdx.foldl (fun m j => innerFold m idx j (fun i => cap i j) cs) M

/-- The tensor after the four diagonal-block writes of `set_twiss`
(lines 899–901/906–908/913–915), with resolved `alpha`, `beta`, `eps`. -/
noncomputable def twissM4 (st : BeamState) (coor : TCoor) (α β eps : ℝ)
    (cs : ℕ) : Mom :=
  let a := twissA coor
  let a' := twissAp coor
  upd3 (upd3 (upd3 (upd3 st.moment1
    a a cs (β * eps))
    a a' cs (-α * eps * twissK1 coor))
    a' a cs (-α * eps * twissK1 coor))
    a' a' cs ((1.0 + α * α) / β * eps * twissK2 coor)

/-- The tensor at the end of a successful `set_twiss` call: the block
write followed by the re-application of the captured coupling terms. -/
noncomputable def twissFinal (st : BeamState) (coor : TCoor) (α β eps : ℝ)
    (cs : ℕ) : Mom :=
  reapply (twissM4 st coor α β eps cs) (twissIdx coor) (twissJdx coor)
    (fun i j => couple_term (momSlice st cs) i j) cs


/-! ## Alias resolution (`flame_utils/misc/alias.py`, `BeamState._aliases`)

The `@alias` decorator copies class-dict entries: for each
`(aliasName, targetName)` in `_aliases` it executes
`setattr(cls, aliasName, original[targetName])` where `original` is a copy
of the class `__dict__` taken *before* the loop.  The class dict is
modelled as an association list from attribute name to the `property`
object defined under that name; the property objects themselves are
modelled by their identity (the canonical name) plus whether the class
body defines a matching `@<name>.setter` (getter/setter bodies are
represented elsewhere in this file by the per-accessor functions). -/

structure PyProperty where
  pname : PyS
  hasSetter : Bool
  deriving DecidableEq

/-- Helper for dictionary entries. -/
def mkProp (s : String) (b : Bool) : PyS × PyProperty := (s.data, ⟨s.data, b⟩)

/-- Helper for alias pairs. -/
def aPair (a b : String) : PyS × PyS := (a.data, b.data)

/-- The `@property` entries of the `BeamState` class body, in source
order, each with the presence of its `@<name>.setter`. -/
def bmPropertyDict : List (PyS × PyProperty) :=
  [   mkProp "state" true,
   mkProp "pos" true,
   mkProp "ref_beta" true,
   mkProp "ref_bg" true,
   mkProp "ref_gamma" true,
   mkProp "ref_IonEk" true,
   mkProp "ref_IonEs" true,
   mkProp "ref_IonQ" true,
   mkProp "ref_IonW" true,
   mkProp "ref_IonZ" true,
   mkProp "ref_phis" true,
   mkProp "ref_SampleIonK" true,
   mkProp "beta" true,
   mkProp "bg" true,
   mkProp "gamma" true,
   mkProp "IonEk" true,
   mkProp "IonEs" true,
   mkProp "IonQ" true,
   mkProp "IonW" true,
   mkProp "IonZ" true,
   mkProp "phis" true,
   mkProp "SampleIonK" true,
   mkProp "moment0_env" true,
   mkProp "moment0_rms" false,
   mkProp "moment0" true,
   mkProp "moment1" true,
   mkProp "moment1_env" true,
   mkProp "x0" false,
   mkProp "xp0" false,
   mkProp "y0" false,
   mkProp "yp0" false,
   mkProp "phi0" false,
   mkProp "dEk0" false,
   mkProp "x0_env" false,
   mkProp "xp0_env" false,
   mkProp "y0_env" false,
   mkProp "yp0_env" false,
   mkProp "phi0_env" false,
   mkProp "dEk0_env" false,
   mkProp "xrms_all" false,
   mkProp "xprms_all" false,
   mkProp "yrms_all" false,
   mkProp "yprms_all" false,
   mkProp "phirms_all" false,
   mkProp "dEkrms_all" false,
   mkProp "x0_rms" false,
   mkProp "xp0_rms" false,
   mkProp "y0_rms" false,
   mkProp "yp0_rms" false,
   mkProp "phi0_rms" false,
   mkProp "dEk0_rms" false,
   mkProp "last_caviphi0" false,
   mkProp "xemittance" false,
   mkProp "yemittance" false,
   mkProp "zemittance" false,
   mkProp "xemittance_all" false,
   mkProp "yemittance_all" false,
   mkProp "zemittance_all" false,
   mkProp "xnemittance" false,
   mkProp "ynemittance" false,
   mkProp "znemittance" false,
   mkProp "xnemittance_all" false,
   mkProp "ynemittance_all" false,
   mkProp "znemittance_all" false,
   mkProp "xtwiss_beta" false,
   mkProp "ytwiss_beta" false,
   mkProp "ztwiss_beta" false,
   mkProp "xtwiss_beta_all" false,
   mkProp "ytwiss_beta_all" false,
   mkProp "ztwiss_beta_all" false,
   mkProp "xtwiss_alpha" false,
   mkProp "ytwiss_alpha" false,
   mkProp "ztwiss_alpha" false,
   mkProp "xtwiss_alpha_all" false,
   mkProp "ytwiss_alpha_all" false,
   mkProp "ztwiss_alpha_all" false,
   mkProp "couple_xy" false,
   mkProp "couple_xpy" false,
   mkProp "couple_xyp" false,
   mkProp "couple_xpyp" false,
   mkProp "couple_xy_all" false,
   mkProp "couple_xpy_all" false,
   mkProp "couple_xyp_all" false,
   mkProp "couple_xpyp_all" false]

/-- `BeamState._aliases` (state.py lines 142–206), in source order. -/
def bmAliases : List (PyS × PyS) :=
  [   aPair "xcen_all" "x0",
   aPair "ycen_all" "y0",
   aPair "xpcen_all" "xp0",
   aPair "ypcen_all" "yp0",
   aPair "zcen_all" "phi0",
   aPair "zpcen_all" "dEk0",
   aPair "phicen_all" "phi0",
   aPair "dEkcen_all" "dEk0",
   aPair "xrms" "x0_rms",
   aPair "yrms" "y0_rms",
   aPair "xprms" "xp0_rms",
   aPair "yprms" "yp0_rms",
   aPair "zrms" "phi0_rms",
   aPair "zprms" "dEk0_rms",
   aPair "phirms" "phi0_rms",
   aPair "dEkrms" "dEk0_rms",
   aPair "zrms_all" "phirms_all",
   aPair "zprms_all" "dEkrms_all",
   aPair "xcen" "x0_env",
   aPair "ycen" "y0_env",
   aPair "xpcen" "xp0_env",
   aPair "ypcen" "yp0_env",
   aPair "zcen" "phi0_env",
   aPair "zpcen" "dEk0_env",
   aPair "phicen" "phi0_env",
   aPair "dEkcen" "dEk0_env",
   aPair "cenvector" "moment0_env",
   aPair "cenvector_all" "moment0",
   aPair "rmsvector" "moment0_rms",
   aPair "beammatrix_all" "moment1",
   aPair "beammatrix" "moment1_env",
   aPair "xeps" "xemittance",
   aPair "yeps" "yemittance",
   aPair "zeps" "zemittance",
   aPair "xeps_all" "xemittance_all",
   aPair "yeps_all" "yemittance_all",
   aPair "zeps_all" "zemittance_all",
   aPair "xepsn" "xnemittance",
   aPair "yepsn" "ynemittance",
   aPair "zepsn" "znemittance",
   aPair "xepsn_all" "xnemittance_all",
   aPair "yepsn_all" "ynemittance_all",
   aPair "zepsn_all" "znemittance_all",
   aPair "xtwsb" "xtwiss_beta",
   aPair "ytwsb" "ytwiss_beta",
   aPair "ztwsb" "ztwiss_beta",
   aPair "xtwsb_all" "xtwiss_beta_all",
   aPair "ytwsb_all" "ytwiss_beta_all",
   aPair "ztwsb_all" "ztwiss_beta_all",
   aPair "xtwsa" "xtwiss_alpha",
   aPair "ytwsa" "ytwiss_alpha",
   aPair "ztwsa" "ztwiss_alpha",
   aPair "xtwsa_all" "xtwiss_alpha_all",
   aPair "ytwsa_all" "ytwiss_alpha_all",
   aPair "ztwsa_all" "ztwiss_alpha_all",
   aPair "cxy" "couple_xy",
   aPair "cxpy" "couple_xpy",
   aPair "cxyp" "couple_xyp",
   aPair "cxpyp" "couple_xpyp",
   aPair "cxy_all" "couple_xy_all",
   aPair "cxpy_all" "couple_xpy_all",
   aPair "cxyp_all" "couple_xyp_all",
   aPair "cxpyp_all" "couple_xpyp_all"]

/-- The `alias` decorator: fold over `_aliases`, setting each alias name
to `original[target]`; a target missing from the class dict would raise
`KeyError`, modelled as `none`.  `setattr` on the class dict is modelled
by prepending (first-match lookup makes this the dict update), and the
lookup of the target is always against the pre-loop copy `original`. -/
def aliasDecorate (classDict : List (PyS × PyProperty))
    (aliases : List (PyS × PyS)) : Option (List (PyS × PyProperty)) :=
  aliases.foldl
    (fun acc p => acc.bind fun d =>
      (List.lookup p.2 classDict).map fun prop => (p.1, prop) :: d)
    (some classDict)

/-- The `BeamState` class dict after the `@alias` decorator ran. -/
def bmClassDict : Option (List (PyS × PyProperty)) :=
  aliasDecorate bmPropertyDict bmAliases

/-- Assigning to an instance attribute that resolves to a class `property`
without a setter raises `AttributeError` (modelled `.exc`); with a setter
the descriptor's `fset` runs (`.ret ()`).  A name not in the class dict
becomes a plain instance attribute (normal return; unused by the claims). -/
def setBeamAttrOutcome (d : List (PyS × PyProperty)) (attr : PyS) :
    PyCallResult Unit :=
  match List.lookup attr d with
  | some prop => if prop.hasSetter then .ret () else .exc
  | none => .ret ()


/-! ## Source encoder (`generate_source`, state.py lines 1004–1052)

`generate_source(state, sconf)` merges a beam state into a source-element
property map: the four `KEY_MAPPING` fields are overwritten from the
state, then for each charge-state index `i` the flattened centroid column
and tensor slice are stored under `'{vector_variable}{i}'` and
`'{matrix_variable}{i}'`.  Property values are scalars, strings or numeric
arrays. -/

inductive PVal where
  | num : ℝ → PVal
  | str : PyS → PVal
  | arr : List ℝ → PVal

/-- A Python dict used as a property map, modelled extensionally. -/
def PMap := PyS → Option PVal

/-- `d[k] = v` on a property map. -/
def pset (m : PMap) (k : PyS) (v : PVal) : PMap :=
  fun q => if q = k then some v else m q

/-- A sequence of dict writes, in order. -/
def writeAll (L : List (PyS × PVal)) (m : PMap) : PMap :=
  L.foldl (fun mm kv => pset mm kv.1 kv.2) m

/-- `str(i)` for a nonnegative integer: decimal digits, most significant
first. -/
def natStr (n : ℕ) : PyS :=
  if h : n < 10 then [Nat.digitChar n]
  else natStr (n / 10) ++ [Nat.digitChar (n % 10)]
decreasing_by exact Nat.div_lt_self (by omega) (by omega)

/-- `'{0}{1}'.format(p, i)` stringifies the looked-up value: strings are
kept as-is and a missing key (`None`) renders as `"None"`; the `str()`
renderings of numeric and array values are abstracted to fixed tags (the
claims only depend on the rendering being a function of the value). -/
def pyFormatVal : Option PVal → PyS
  | none => "None".data
  | some (.str s) => s
  | some (.num _) => "<float>".data
  | some (.arr _) => "<list>".data

/-- The `KEY_MAPPING` writes
(`sconf_prop[k] = getattr(state, v) for k, v in KEY_MAPPING.items()`),
in the dict-literal order of `KEY_MAPPING`. -/
noncomputable def kmWrites (st : BeamState) : List (PyS × PVal) :=
  [("IonChargeStates".data, .arr st.IonZ),
   ("IonEk".data, .num st.ref_IonEk),
   ("IonEs".data, .num st.ref_IonEs),
   ("NCharge".data, .arr st.IonQ)]

/-- `state.moment0[:, i]` as a flat list of 7 reals. -/
noncomputable def m0col (st : BeamState) (i : ℕ) : List ℝ :=
  (List.finRange 7).map fun r => st.moment0 r i

/-- `state.moment1[:, :, i].flatten()`: the 7×7 slice, row-major. -/
noncomputable def m1flat (st : BeamState) (i : ℕ) : List ℝ :=
  (List.finRange 7).flatMap fun r =>
    (List.finRange 7).map fun c => st.moment1 r c i

/-- The per-charge-state writes
(`sconf_prop['{0}{1}'.format(p, i)] = state.moment0[:, i]` and
`sconf_prop['{0}{1}'.format(s, i)] = state.moment1[:, :, i].flatten()`
for `i in range(len(state.IonZ))`). -/
noncomputable def csWrites (st : BeamState) (p s : PyS) :
    List (PyS × PVal) :=
  (List.range st.IonZ.length).flatMap fun i =>
    [(p ++ natStr i, .arr (m0col st i)),
     (s ++ natStr i, .arr (m1flat st i))]

/-- The fresh default property map built when `sconf is None`
(`{'name': 'S', 'type': 'source', 'matrix_variable': 'S',
'vector_variable': 'P'}`). -/
def defaultSrcProps : PMap := fun k =>
  if k = "name".data then some (.str "S".data)
  else if k = "type".data then some (.str "source".data)
  else if k = "matrix_variable".data then some (.str "S".data)
  else if k = "vector_variable".data then some (.str "P".data)
  else none

/-- A source-element configuration `{'index': ..., 'properties': ...}`. -/
structure SConf where
  index : ℕ
  properties : PMap

/-- `generate_source(state, sconf)`: the `KEY_MAPPING` overwrites, then
the lookup of `vector_variable`/`matrix_variable`, then the
per-charge-state writes. -/
noncomputable def generate_source (st : BeamState) (sconf : Option SConf) :
    SConf :=
  let idx := match sconf with | some c => c.index | none => 0
  let prop0 := match sconf with | some c => c.properties
                                | none => defaultSrcProps
  let prop1 := writeAll (kmWrites st) prop0
  let p := pyFormatVal (prop1 "vector_variable".data)
  let s := pyFormatVal (prop1 "matrix_variable".data)
  { index := idx, properties := writeAll (csWrites st p s) prop1 }


/-! ## Element lookup (`get_element`, element.py lines 171–301, and
`get_intersection`, listset.py lines 49–82)

The FLAME machine is modelled as its ordered element list (name and type
per element); `machine.find(name=n)` / `find(type=t)` return the index
lists.  Regular-expression search (`_pattern`) is abstracted as a
predicate on names.  `get_element` combines the index, name(+pattern) and
type filters through `get_intersection` and returns `[]` when the
combined index set is empty. -/

structure MElem where
  name : PyS
  type : PyS

structure Machine where
  elems : List MElem

/-- `machine.find(name=n)`: indices of elements with that name. -/
def findByName (m : Machine) (n : PyS) : List ℕ :=
  (m.elems.enum.filter fun p => p.2.name == n).map Prod.fst

/-- `machine.find(type=t)`: indices of elements with that type. -/
def findByType (m : Machine) (t : PyS) : List ℕ :=
  (m.elems.enum.filter fun p => p.2.type == t).map Prod.fst

/-- `get_names_by_pattern`: names whose regex search succeeds; returns
`None` when nothing matched. -/
def get_names_by_pattern (m : Machine) (pf : PyS → Bool) :
    Option (List PyS) :=
  let r := (m.elems.filter fun e => pf e.name).map MElem.name
  if r ≠ [] then some r else none

/-- `get_intersection(**kws)` over the filter result lists, in keyword
order: starting from the empty set, union in a list when the accumulator
is empty *or the list is empty* (so empty lists are skipped), otherwise
intersect. -/
def get_intersection (ls : List (List ℕ)) : Finset ℕ :=
  ls.foldl
    (fun s v => if s = ∅ ∨ v = [] then s ∪ v.toFinset else s ∩ v.toFinset)
    ∅

/-- The element index set computed by `get_element(index=..., name=...,
type=..., _pattern=...)`: `None` arguments are unsupplied filters;
pattern matches are prepended to the explicit name list; the final
result list of `get_element` is empty iff this set is empty. -/
def get_element_indices (m : Machine) (index : Option (List ℕ))
    (name : Option (List PyS)) (typ : Option (List PyS))
    (patt : Option (PyS → Bool)) : Finset ℕ :=
  let idxFromIndex := index.getD []
  let names0 : List PyS := match patt with
    | some pf => match get_names_by_pattern m pf with
      | some l => l
      | none => []
    | none => []
  let names := names0 ++ name.getD []
  let idxFromName := if names = [] then [] else names.flatMap (findByName m)
  let idxFromType := (typ.getD []).flatMap (findByType m)
  get_intersection [idxFromIndex, idxFromName, idxFromType]

/-- A one-element machine (an element named `a` of type `m`). -/
def machineOne : Machine := ⟨[⟨"a".data, "m".data⟩]⟩


/-! ## Lattice patch-mode scanner (`generate_latfile`, lattice.py lines
182–282)

Patch mode walks the original file's lines with one cursor.  Per line:
`rl = l.replace(' ', '')` decides the blank/comment passthrough, the line
is stripped of its final character (`l = l[0:-1]`), and `gps` locates the
first occurrence of each token `'#'`, `': '`, `';'`, `'='`, `','` (with
`'#'` defaulting to the line length).  An assignment line whose left-hand
side is a live source property, or a declaration line whose name is a
live element name, is rewritten; anything else is appended verbatim
(minus the stripped final character).  A rewritten line lacking a `';'`
additionally skips the continuation lines of the original up to and
including the first line with a `';'` before its `'#'`.  The text the
rewrite branches produce is abstracted into the two context functions
(the claims under scan exercise only the pass-through paths). -/

/-- `l.find(pat)`: index of the first occurrence of `pat` in `l`, `-1` if
absent. -/
def pyFind (l pat : PyS) : ℤ :=
  match (List.range (l.length + 1)).find?
      (fun i => pat.isPrefixOf (l.drop i)) with
  | some i => (i : ℤ)
  | none => -1

/-- The `'#'` entry of `gps(l)`: first `'#'` position, defaulting to
`len(l)`. -/
def gpsHash (l : PyS) : ℤ :=
  if pyFind l "#".data = -1 then (l.length : ℤ) else pyFind l "#".data

/-- The inputs of one patch-mode run: the keys of the live source
property map `mc_src`, the live element names, and the two rewrite
branches (assignment rewrite from `(bp, line)`, declaration rewrite from
the element name), abstracted as functions. -/
structure PatchCtx where
  mcKeys : List PyS
  names : List PyS
  assignRw : PyS → PyS → PyS
  declRw : PyS → PyS

/-- `rl == '\n' or rl[0] == '#'` where `rl = l.replace(' ', '')`.
(An all-space line without a newline would make `rl[0]` raise in Python;
such lines do not occur in `readlines` output and are mapped to `false`
here.) -/
def blankOrComment (l : PyS) : Bool :=
  let rl := l.filter fun c => c != ' '
  rl == ['\n'] || rl.head? == some '#'

/-- Classification of one stripped line: `some nl` when the line is a
recognized assignment of a live property or a recognized declaration of a
live element name (`nl` the rewritten text), `none` when it passes
through verbatim.  Mirrors the two guarded branches of the scanner:
an assignment needs `'='` before `'#'` and before any `': '`; otherwise
a declaration needs `': '` before `'#'`; lookups that miss `mc_src` or
the name list leave `nl = None`. -/
def classify (ctx : PatchCtx) (l : PyS) : Option PyS :=
  let pe := pyFind l "=".data
  let ph := gpsHash l
  let pc := pyFind l ": ".data
  if (pe ≠ -1 ∧ pe < ph) ∧ (pc = -1 ∨ (pe < pc ∧ pc < ph)) then
    let bp := (l.take pe.toNat).filter fun c => c != ' '
    if bp ∈ ctx.mcKeys then some (ctx.assignRw bp l) else none
  else if pc ≠ -1 ∧ pc < ph then
    let nm := (l.take pc.toNat).filter fun c => c != ' '
    if nm ∈ ctx.names then some (ctx.declRw nm) else none
  else none

/-- The continuation skip: drop lines up to and including the first whose
`';'` occurs before its `'#'` (the inner `while flg` loop; note it
inspects the raw, unstripped lines). -/
def skipCont : List PyS → List PyS
  | [] => []
  | t :: r =>
    if pyFind t ";".data ≠ -1 ∧ pyFind t ";".data < gpsHash t then r
    else skipCont r

/-- The scanner loop, structurally recursive on a fuel that starts at the
line count: every iteration both consumes one fuel and removes at least
one line (the cursor `n` strictly increases), so the fuel never runs out
and the `fuel = 0` branch is unreachable from `patchScan`. -/
def patchScanGo (ctx : PatchCtx) : ℕ → List PyS → List PyS
  | 0, _ => []
  | _ + 1, [] => []
  | n + 1, l :: rest =>
    if blankOrComment l then l.dropLast :: patchScanGo ctx n rest
    else
      match classify ctx l.dropLast with
      | none => l.dropLast :: patchScanGo ctx n rest
      | some nl =>
        let out := nl ++ "; ".data ++
          l.dropLast.drop (gpsHash l.dropLast).toNat
        if pyFind l.dropLast ";".data = -1 then
          out :: patchScanGo ctx n (skipCont rest)
        else out :: patchScanGo ctx n rest

/-- The patch-mode scan of a whole file (list of `readlines` lines). -/
def patchScan (ctx : PatchCtx) (fline : List PyS) : List PyS :=
  patchScanGo ctx fline.length fline

/-- `'\n'.join(lines)` — the text written to the output target (the
file path writes exactly this; the stream path appends one final
newline via `print`). -/
def renderOut : List PyS → PyS
  | [] => []
  | [l] => l
  | l :: rest => l ++ '\n' :: renderOut rest

/-- Whether the scanner rewrites this line (blank/comment lines and
classification misses pass through verbatim). -/
def recognizedLine (ctx : PatchCtx) (l : PyS) : Bool :=
  !blankOrComment l && (classify ctx l.dropLast).isSome

/-- A patch context with no live properties and no live element names
(every line misses both lookups). -/
def ctxEmpty : PatchCtx := ⟨[], [], fun _ l => l, fun n => n⟩

/-- A concrete beam state with a single charge state and all-zero moments
(the state produced by `allocState({})`), used to instantiate theorems. -/
noncomputable def stZero : BeamState :=
  { moment1 := fun _ _ _ => 0
    moment1_env := fun _ _ => 0
    moment0 := fun _ _ => 0
    IonZ := [0]
    IonQ := [1]
    ref_IonEk := 0
    ref_IonEs := 1
    ref_bg := 0
    nCS := 1 }

/-- A concrete beam state (one charge state) whose tensor has unit `x`/`y`
variances and a nonzero normalized `x`-`y` coupling of `1/2`. -/
noncomputable def stCouple : BeamState :=
  { moment1 := fun i j _ =>
      if i = 0 ∧ j = 0 then 1
      else if i = 2 ∧ j = 2 then 1
      else if (i = 0 ∧ j = 2) ∨ (i = 2 ∧ j = 0) then 1 / 2
      else 0
    moment1_env := fun _ _ => 0
    moment0 := fun _ _ => 0
    IonZ := [0]
    IonQ := [1]
    ref_IonEk := 0
    ref_IonEs := 1
    ref_bg := 0
    nCS := 1 }

theorem upd3_same (M : Mom) (a b : Fin 7) (cs : ℕ) (v : ℝ) :
    upd3 M a b cs v a b cs = v := by
  simp [upd3]

theorem upd3_other (M : Mom) (a b p q : Fin 7) (cs k : ℕ) (v : ℝ)
    (h : ¬(p = a ∧ q = b ∧ k = cs)) : upd3 M a b cs v p q k = M p q k :=
  if_neg h

theorem scm_other (M : Mom) (c1 c2 p q : Fin 7) (v : ℝ) (cs k : ℕ)
    (h1 : ¬(p = c1 ∧ q = c2 ∧ k = cs)) (h2 : ¬(p = c2 ∧ q = c1 ∧ k = cs)) :
    set_couple_mat M c1 c2 v cs p q k = M p q k := by
  simp only [set_couple_mat, upd3_other _ _ _ _ _ _ _ _ h2,
    upd3_other _ _ _ _ _ _ _ _ h1]

theorem scm_hit (M : Mom) (c1 c2 : Fin 7) (v : ℝ) (cs : ℕ) (h : c1 ≠ c2) :
    set_couple_mat M c1 c2 v cs c1 c2 cs =
      v * Real.sqrt (M c1 c1 cs * M c2 c2 cs) := by
  have h2 : ¬(c1 = c2 ∧ c2 = c1 ∧ cs = cs) := fun hc => h hc.1
  simp only [set_couple_mat, upd3_other _ _ _ _ _ _ _ _ h2, upd3_same]

theorem innerFold_nil (M : Mom) (j : Fin 7) (capf : Fin 7 → ℝ) (cs : ℕ) :
    innerFold M [] j capf cs = M := rfl

theorem innerFold_cons (M : Mom) (i : Fin 7) (t : List (Fin 7)) (j : Fin 7)
    (capf : Fin 7 → ℝ) (cs : ℕ) :
    innerFold M (i :: t) j capf cs =
      innerFold (set_couple_mat M i j (capf i) cs) t j capf cs := rfl

theorem reapply_nil (M : Mom) (idx : List (Fin 7))
    (cap : Fin 7 → Fin 7 → ℝ) (cs : ℕ) : reapply M idx [] cap cs = M := rfl

theorem reapply_cons (M : Mom) (idx : List (Fin 7)) (j : Fin 7)
    (t : List (Fin 7)) (cap : Fin 7 → Fin 7 → ℝ) (cs : ℕ) :
    reapply M idx (j :: t) cap cs =
      reapply (innerFold M idx j (fun i => cap i j) cs) idx t cap cs := rfl

theorem innerFold_other (M : Mom) (idx : List (Fin 7)) (j p q : Fin 7)
    (capf : Fin 7 → ℝ) (cs k : ℕ)
    (h : ∀ i ∈ idx, ¬(p = i ∧ q = j ∧ k = cs) ∧ ¬(p = j ∧ q = i ∧ k = cs)) :
    innerFold M idx j capf cs p q k = M p q k := by
  induction idx generalizing M with
  | nil => rfl
  | cons i t ih =>
    rw [innerFold_cons, ih _ fun i' hi' => h i' (List.mem_cons_of_mem _ hi'),
      scm_other _ _ _ _ _ _ _ _ (h i (List.mem_cons_self i t)).1
        (h i (List.mem_cons_self i t)).2]

theorem innerFold_diag (M : Mom) (idx : List (Fin 7)) (j d : Fin 7)
    (capf : Fin 7 → ℝ) (cs k : ℕ) (h : ∀ i ∈ idx, i ≠ j) :
    innerFold M idx j capf cs d d k = M d d k := by
  refine innerFold_other M idx j d d capf cs k fun i hi => ⟨?_, ?_⟩
  · rintro ⟨rfl, rfl, -⟩
    exact h d hi rfl
  · rintro ⟨rfl, rfl, -⟩
    exact h d hi rfl

theorem innerFold_hit (M : Mom) (idx : List (Fin 7)) (j p : Fin 7)
    (capf : Fin 7 → ℝ) (cs : ℕ) (hno : idx.Nodup) (hne : ∀ i ∈ idx, i ≠ j)
    (hp : p ∈ idx) :
    innerFold M idx j capf cs p j cs =
      capf p * Real.sqrt (M p p cs * M j j cs) := by
  induction idx generalizing M with
  | nil => cases hp
  | cons i t ih =>
    rw [innerFold_cons]
    rcases List.mem_cons.mp hp with rfl | hpt
    · rw [innerFold_other]
      · exact scm_hit M p j (capf p) cs (hne p (List.mem_cons_self p t))
      · intro i' hi'
        refine ⟨?_, ?_⟩
        · rintro ⟨rfl, -, -⟩
          exact (List.nodup_cons.mp hno).1 hi'
        · rintro ⟨hpj, -, -⟩
          exact hne p (List.mem_cons_self p t) hpj
    · have hpi : p ≠ i := fun hpi =>
        (List.nodup_cons.mp hno).1 (hpi ▸ hpt)
      have hij : i ≠ j := hne i (List.mem_cons_self i t)
      have hpj : p ≠ j := hne p hp
      rw [ih _ (List.nodup_cons.mp hno).2
        (fun i' hi' => hne i' (List.mem_cons_of_mem _ hi')) hpt,
        scm_other _ _ _ _ _ _ _ _
          (fun hc => hpi hc.1) (fun hc => hpj hc.1),
        scm_other _ _ _ _ _ _ _ _
          (fun hc => hij hc.1.symm) (fun hc => hij hc.2.1.symm)]

theorem reapply_other (M : Mom) (idx jdx : List (Fin 7)) (p q : Fin 7)
    (cap : Fin 7 → Fin 7 → ℝ) (cs k : ℕ)
    (h : ∀ j ∈ jdx, ∀ i ∈ idx,
      ¬(p = i ∧ q = j ∧ k = cs) ∧ ¬(p = j ∧ q = i ∧ k = cs)) :
    reapply M idx jdx cap cs p q k = M p q k := by
  induction jdx generalizing M with
  | nil => rfl
  | cons j t ih =>
    rw [reapply_cons, ih _ fun j' hj' => h j' (List.mem_cons_of_mem _ hj'),
      innerFold_other _ _ _ _ _ _ _ _ fun i hi =>
        ⟨(h j (List.mem_cons_self j t) i hi).1,
         (h j (List.mem_cons_self j t) i hi).2⟩]

theorem reapply_diag (M : Mom) (idx jdx : List (Fin 7)) (d : Fin 7)
    (cap : Fin 7 → Fin 7 → ℝ) (cs k : ℕ)
    (hd : ∀ j ∈ jdx, ∀ i ∈ idx, i ≠ j) :
    reapply M idx jdx cap cs d d k = M d d k := by
  refine reapply_other M idx jdx d d cap cs k fun j hj i hi => ⟨?_, ?_⟩
  · rintro ⟨rfl, rfl, -⟩
    exact hd d hj d hi rfl
  · rintro ⟨rfl, rfl, -⟩
    exact hd d hj d hi rfl

theorem reapply_hit (M : Mom) (idx jdx : List (Fin 7)) (p q : Fin 7)
    (cap : Fin 7 → Fin 7 → ℝ) (cs : ℕ) (hnoI : idx.Nodup) (hnoJ : jdx.Nodup)
    (hd : ∀ j ∈ jdx, ∀ i ∈ idx, i ≠ j) (hp : p ∈ idx) (hq : q ∈ jdx) :
    reapply M idx jdx cap cs p q cs =
      cap p q * Real.sqrt (M p p cs * M q q cs) := by
  induction jdx generalizing M with
  | nil => cases hq
  | cons j t ih =>
    rw [reapply_cons]
    rcases List.mem_cons.mp hq with rfl | hqt
    · rw [reapply_other]
      · exact innerFold_hit M idx q p _ cs hnoI
          (fun i hi => hd q (List.mem_cons_self q t) i hi) hp
      · intro j' hj' i hi
        refine ⟨?_, ?_⟩
        · rintro ⟨-, rfl, -⟩
          exact (List.nodup_cons.mp hnoJ).1 hj'
        · rintro ⟨rfl, -, -⟩
          exact hd p (List.mem_cons_of_mem _ hj') p hp rfl
    · have hij : ∀ i ∈ idx, i ≠ j :=
        fun i hi => hd j (List.mem_cons_self j t) i hi
      rw [ih _ (List.nodup_cons.mp hnoJ).2
        (fun j' hj' i hi => hd j' (List.mem_cons_of_mem _ hj') i hi) hqt,
        innerFold_diag M idx j p (fun i => cap i j) cs cs hij,
        innerFold_diag M idx j q (fun i => cap i j) cs cs hij]

theorem zip_map_foldl {α β γ : Type} (l : List α) (f : α → β)
    (g : γ → α × β → γ) (init : γ) :
    (l.zip (l.map f)).foldl g init =
      l.foldl (fun acc a => g acc (a, f a)) init := by
  induction l generalizing init with
  | nil => rfl
  | cons a t ih =>
    simp only [List.map_cons, List.zip_cons_cons, List.foldl_cons, ih]

/-- On the non-error paths, `set_twiss` produces exactly the
`twissFinal` tensor at the resolved parameter values. -/
theorem set_twiss_eq (st : BeamState) (coor : TCoor)
    (alpha beta rmssize emittance nemittance : Option ℝ) (cs : ℕ)
    (herr : ¬(beta.isSome ∧ rmssize.isSome)) :
    set_twiss st coor alpha beta rmssize emittance nemittance cs =
      some { st with moment1 := (twissFinal st coor
        (resolveAlpha st coor alpha cs)
        (resolveBeta st coor beta rmssize
          (resolveEps st coor emittance nemittance cs) cs)
        (resolveEps st coor emittance nemittance cs) cs) } := by
  cases beta with
  | some b =>
    cases rmssize with
    | some r => exact absurd ⟨rfl, rfl⟩ herr
    | none =>
      simp only [set_twiss, twissFinal, twissM4, reapply, innerFold,
        zip_map_foldl]
  | none =>
    cases rmssize with
    | some r =>
      simp only [set_twiss, twissFinal, twissM4, reapply, innerFold,
        zip_map_foldl]
    | none =>
      simp only [set_twiss, twissFinal, twissM4, reapply, innerFold,
        zip_map_foldl]

theorem twiss_disj (coor : TCoor) :
    ∀ j ∈ twissJdx coor, ∀ i ∈ twissIdx coor, i ≠ j := by
  cases coor <;> decide

theorem twiss_nodupI (coor : TCoor) : (twissIdx coor).Nodup := by
  cases coor <;> decide

theorem twiss_nodupJ (coor : TCoor) : (twissJdx coor).Nodup := by
  cases coor <;> decide

theorem twissA_mem (coor : TCoor) : twissA coor ∈ twissIdx coor := by
  cases coor <;> decide

theorem twissAp_mem (coor : TCoor) : twissAp coor ∈ twissIdx coor := by
  cases coor <;> decide

theorem twissM4_aa (st : BeamState) (coor : TCoor) (α β eps : ℝ) (cs : ℕ) :
    twissM4 st coor α β eps cs (twissA coor) (twissA coor) cs = β * eps := by
  cases coor <;> simp +decide [twissM4, upd3, twissA, twissAp]

theorem twissM4_aap (st : BeamState) (coor : TCoor) (α β eps : ℝ) (cs : ℕ) :
    twissM4 st coor α β eps cs (twissA coor) (twissAp coor) cs =
      -α * eps * twissK1 coor := by
  cases coor <;> simp +decide [twissM4, upd3, twissA, twissAp]

theorem twissM4_apa (st : BeamState) (coor : TCoor) (α β eps : ℝ) (cs : ℕ) :
    twissM4 st coor α β eps cs (twissAp coor) (twissA coor) cs =
      -α * eps * twissK1 coor := by
  cases coor <;> simp +decide [twissM4, upd3, twissA, twissAp]

theorem twissM4_apap (st : BeamState) (coor : TCoor) (α β eps : ℝ) (cs : ℕ) :
    twissM4 st coor α β eps cs (twissAp coor) (twissAp coor) cs =
      (1.0 + α * α) / β * eps * twissK2 coor := by
  cases coor <;> simp +decide [twissM4, upd3, twissA, twissAp]

/-- Entries outside the written 2×2 block are untouched by the block
write. -/
theorem twissM4_other (st : BeamState) (coor : TCoor) (α β eps : ℝ)
    (cs k : ℕ) (p q : Fin 7)
    (h1 : ¬(p = twissA coor ∧ q = twissA coor ∧ k = cs))
    (h2 : ¬(p = twissA coor ∧ q = twissAp coor ∧ k = cs))
    (h3 : ¬(p = twissAp coor ∧ q = twissA coor ∧ k = cs))
    (h4 : ¬(p = twissAp coor ∧ q = twissAp coor ∧ k = cs)) :
    twissM4 st coor α β eps cs p q k = st.moment1 p q k := by
  simp only [twissM4, upd3_other _ _ _ _ _ _ _ _ h4,
    upd3_other _ _ _ _ _ _ _ _ h3, upd3_other _ _ _ _ _ _ _ _ h2,
    upd3_other _ _ _ _ _ _ _ _ h1]

theorem jdx_ne_block (coor : TCoor) :
    ∀ j ∈ twissJdx coor, j ≠ twissA coor ∧ j ≠ twissAp coor := by
  cases coor <;> decide

/-- Diagonal entries at a `jdx` coordinate keep their original values
through the whole `set_twiss` tensor update. -/
theorem twissFinal_jj (st : BeamState) (coor : TCoor) (α β eps : ℝ)
    (cs k : ℕ) (j : Fin 7) (hj : j ∈ twissJdx coor) :
    twissFinal st coor α β eps cs j j k = st.moment1 j j k := by
  rw [twissFinal, reapply_diag _ _ _ _ _ _ _ (twiss_disj coor)]
  exact twissM4_other st coor α β eps cs k j j
    (fun hc => (jdx_ne_block coor j hj).1 hc.1)
    (fun hc => (jdx_ne_block coor j hj).1 hc.1)
    (fun hc => (jdx_ne_block coor j hj).2 hc.1)
    (fun hc => (jdx_ne_block coor j hj).2 hc.1)

/-- Entries of the edited 2×2 block pass through the coupling
re-application loop unchanged. -/
theorem twissFinal_block (st : BeamState) (coor : TCoor) (α β eps : ℝ)
    (cs k : ℕ) (p q : Fin 7) (hp : p ∈ twissIdx coor)
    (hq : q ∈ twissIdx coor) :
    twissFinal st coor α β eps cs p q k =
      twissM4 st coor α β eps cs p q k := by
  refine reapply_other _ _ _ _ _ _ _ _ fun j hj i hi =>
    ⟨fun hc => twiss_disj coor j hj q hq hc.2.1,
     fun hc => twiss_disj coor j hj p hp hc.1⟩

/-- Reading the per-axis emittance and Twiss parameters back from the
tensor a successful `set_twiss` call produced, at resolved values
`α`, `β > 0`, `ε > 0`, recovers exactly those values. -/
theorem twiss_readings (st st' : BeamState) (coor : TCoor) (α β ε : ℝ)
    (cs : ℕ) (hβ : 0 < β) (hε : 0 < ε)
    (hm : st'.moment1 = twissFinal st coor α β ε cs) :
    coorEmittanceAll st' coor cs = ε ∧
    coorTwissBetaAll st' coor cs = β ∧
    coorTwissAlphaAll st' coor cs = α := by
  cases coor with
  | x =>
    have e00 : st'.moment1 0 0 cs = β * ε := by
      rw [hm, twissFinal_block st .x α β ε cs cs 0 0 (by decide) (by decide)]
      exact twissM4_aa st .x α β ε cs
    have e01 : st'.moment1 0 1 cs = -α * ε * (1e-3 : ℝ) := by
      rw [hm, twissFinal_block st .x α β ε cs cs 0 1 (by decide) (by decide)]
      exact twissM4_aap st .x α β ε cs
    have e10 : st'.moment1 1 0 cs = -α * ε * (1e-3 : ℝ) := by
      rw [hm, twissFinal_block st .x α β ε cs cs 1 0 (by decide) (by decide)]
      exact twissM4_apa st .x α β ε cs
    have e11 : st'.moment1 1 1 cs = (1.0 + α * α) / β * ε * (1e-6 : ℝ) := by
      rw [hm, twissFinal_block st .x α β ε cs cs 1 1 (by decide) (by decide)]
      exact twissM4_apap st .x α β ε cs
    have hemit : xemittance_all st' cs = ε := by
      simp only [xemittance_all, e00, e01, e10, e11]
      rw [show β * ε * ((1.0 + α * α) / β * ε * (1e-6 : ℝ)) -
          -α * ε * (1e-3 : ℝ) * (-α * ε * (1e-3 : ℝ)) = (ε * 1e-3) ^ 2 by
        field_simp
        ring]
      rw [Real.sqrt_sq (by positivity), mul_assoc]
      norm_num
    refine ⟨hemit, ?_, ?_⟩
    · show st'.moment1 0 0 cs / xemittance_all st' cs = β
      rw [e00, hemit, mul_div_assoc, div_self hε.ne', mul_one]
    · show -st'.moment1 0 1 cs / xemittance_all st' cs * 1e3 = α
      rw [e01, hemit]
      field_simp
      ring
  | y =>
    have e00 : st'.moment1 2 2 cs = β * ε := by
      rw [hm, twissFinal_block st .y α β ε cs cs 2 2 (by decide) (by decide)]
      exact twissM4_aa st .y α β ε cs
    have e01 : st'.moment1 2 3 cs = -α * ε * (1e-3 : ℝ) := by
      rw [hm, twissFinal_block st .y α β ε cs cs 2 3 (by decide) (by decide)]
      exact twissM4_aap st .y α β ε cs
    have e10 : st'.moment1 3 2 cs = -α * ε * (1e-3 : ℝ) := by
      rw [hm, twissFinal_block st .y α β ε cs cs 3 2 (by decide) (by decide)]
      exact twissM4_apa st .y α β ε cs
    have e11 : st'.moment1 3 3 cs = (1.0 + α * α) / β * ε * (1e-6 : ℝ) := by
      rw [hm, twissFinal_block st .y α β ε cs cs 3 3 (by decide) (by decide)]
      exact twissM4_apap st .y α β ε cs
    have hemit : yemittance_all st' cs = ε := by
      simp only [yemittance_all, e00, e01, e10, e11]
      rw [show β * ε * ((1.0 + α * α) / β * ε * (1e-6 : ℝ)) -
          -α * ε * (1e-3 : ℝ) * (-α * ε * (1e-3 : ℝ)) = (ε * 1e-3) ^ 2 by
        field_simp
        ring]
      rw [Real.sqrt_sq (by positivity), mul_assoc]
      norm_num
    refine ⟨hemit, ?_, ?_⟩
    · show st'.moment1 2 2 cs / yemittance_all st' cs = β
      rw [e00, hemit, mul_div_assoc, div_self hε.ne', mul_one]
    · show -st'.moment1 2 3 cs / yemittance_all st' cs * 1e3 = α
      rw [e01, hemit]
      field_simp
      ring
  | z =>
    have e00 : st'.moment1 4 4 cs = β * ε := by
      rw [hm, twissFinal_block st .z α β ε cs cs 4 4 (by decide) (by decide)]
      exact twissM4_aa st .z α β ε cs
    have e01 : st'.moment1 4 5 cs = -α * ε * (1 : ℝ) := by
      rw [hm, twissFinal_block st .z α β ε cs cs 4 5 (by decide) (by decide)]
      exact twissM4_aap st .z α β ε cs
    have e10 : st'.moment1 5 4 cs = -α * ε * (1 : ℝ) := by
      rw [hm, twissFinal_block st .z α β ε cs cs 5 4 (by decide) (by decide)]
      exact twissM4_apa st .z α β ε cs
    have e11 : st'.moment1 5 5 cs = (1.0 + α * α) / β * ε * (1 : ℝ) := by
      rw [hm, twissFinal_block st .z α β ε cs cs 5 5 (by decide) (by decide)]
      exact twissM4_apap st .z α β ε cs
    have hemit : zemittance_all st' cs = ε := by
      simp only [zemittance_all, e00, e01, e10, e11]
      rw [show β * ε * ((1.0 + α * α) / β * ε * (1 : ℝ)) -
          -α * ε * (1 : ℝ) * (-α * ε * (1 : ℝ)) = ε ^ 2 by
        field_simp
        ring]
      rw [Real.sqrt_sq hε.le]
    refine ⟨hemit, ?_, ?_⟩
    · show st'.moment1 4 4 cs / zemittance_all st' cs = β
      rw [e00, hemit, mul_div_assoc, div_self hε.ne', mul_one]
    · show -st'.moment1 4 5 cs / zemittance_all st' cs = α
      rw [e01, hemit]
      field_simp

/-- C1: Twiss round trip.  For any finite `alpha`, `beta > 0`,
`emittance > 0`, valid charge-state index `cs` and coordinate in
`{'x','y','z'}`, `set_twiss(coor, alpha=alpha, beta=beta,
emittance=emittance, cs=cs)` succeeds, and then reading
`<coor>twiss_alpha_all[cs]`, `<coor>twiss_beta_all[cs]` and
`<coor>emittance_all[cs]` returns exactly `alpha`, `beta`, `emittance`. -/
theorem C1_twiss_round_trip (st : BeamState) (coor : TCoor) (α β ε : ℝ)
    (cs : ℕ) (hβ : 0 < β) (hε : 0 < ε) (hcs : cs < st.nCS) :
    (set_twiss st coor (some α) (some β) none (some ε) none cs).isSome ∧
    coorTwissAlphaAll
      (set_twiss_run st coor (some α) (some β) none (some ε) none cs)
      coor cs = α ∧
    coorTwissBetaAll
      (set_twiss_run st coor (some α) (some β) none (some ε) none cs)
      coor cs = β ∧
    coorEmittanceAll
      (set_twiss_run st coor (some α) (some β) none (some ε) none cs)
      coor cs = ε := by
  have herr : ¬((some β).isSome ∧ (none : Option ℝ).isSome) := by simp
  have heq := set_twiss_eq st coor (some α) (some β) none (some ε) none cs herr
  have hrun : set_twiss_run st coor (some α) (some β) none (some ε) none cs =
      { st with moment1 := twissFinal st coor α β ε cs } := by
    rw [set_twiss_run, heq]
    rfl
  obtain ⟨he, hb, ha⟩ := twiss_readings st
    (set_twiss_run st coor (some α) (some β) none (some ε) none cs)
    coor α β ε cs hβ hε (by rw [hrun])
  exact ⟨by rw [heq]; rfl, ha, hb, he⟩

/-- Witness for C1: the concrete scenario of the spec at
`alpha = 0.2`, `beta = 3.0`, `emittance = 5.0`, `cs = 0` on the
single-charge-state zero state. -/
theorem C1_twiss_round_trip_witness :
    coorTwissAlphaAll
      (set_twiss_run stZero .x (some 0.2) (some 3.0) none (some 5.0) none 0)
      .x 0 = 0.2 ∧
    coorTwissBetaAll
      (set_twiss_run stZero .x (some 0.2) (some 3.0) none (some 5.0) none 0)
      .x 0 = 3.0 ∧
    coorEmittanceAll
      (set_twiss_run stZero .x (some 0.2) (some 3.0) none (some 5.0) none 0)
      .x 0 = 5.0 :=
  (C1_twiss_round_trip stZero .x 0.2 3.0 5.0 0 (by norm_num) (by norm_num)
    (by decide)).2

theorem momSlice_natCast (st : BeamState) (cs : ℕ) :
    momSlice st (cs : ℤ) = fun a b => st.moment1 a b cs := by
  rw [momSlice, if_neg (by omega)]
  simp only [Int.toNat_natCast]

theorem twissK2_pos (coor : TCoor) : 0 < twissK2 coor := by
  cases coor <;> norm_num [twissK2]

theorem twissIdx_cases (coor : TCoor) (i : Fin 7) (hi : i ∈ twissIdx coor) :
    i = twissA coor ∨ i = twissAp coor := by
  cases coor <;> fin_cases hi <;> decide

/-- The normalized coupling read back against a refreshed diagonal: if the
cross term was written as `v * sqrt(dii*djj)` and the captured `v` is `0`
whenever `djj = 0`, then renormalizing recovers `v` exactly. -/
theorem couple_after (v dii djj : ℝ) (hii : 0 < dii) (hjj : 0 ≤ djj)
    (hv : djj = 0 → v = 0) :
    (if Real.sqrt (dii * djj) ≠ 0 then
      v * Real.sqrt (dii * djj) / Real.sqrt (dii * djj) else 0) = v := by
  rcases hjj.eq_or_lt with h0 | hpos
  · rw [← h0, mul_zero, Real.sqrt_zero]
    simp [hv h0.symm]
  · have hne : Real.sqrt (dii * djj) ≠ 0 :=
      (Real.sqrt_pos.mpr (mul_pos hii hpos)).ne'
    rw [if_pos hne, mul_div_cancel_right₀ v hne]

/-- C2 (amended): after any successful `set_twiss` call whose resolved
emittance and beta are strictly positive, on a state whose diagonal
variances at the edited charge state are nonnegative, every normalized
coupling term between a coordinate of the edited axis block and a
coordinate of the other two axes is unchanged.  (The claim as frozen —
for *every* successful call — fails when the resolved emittance is `0`;
see the counterexample.) -/
theorem C2_coupling_invariance (st : BeamState) (coor : TCoor)
    (alpha beta rmssize emittance nemittance : Option ℝ) (cs : ℕ)
    (herr : ¬(beta.isSome ∧ rmssize.isSome))
    (hdiag : ∀ k : Fin 7, 0 ≤ st.moment1 k k cs)
    (hβ : 0 < resolveBeta st coor beta rmssize
      (resolveEps st coor emittance nemittance cs) cs)
    (hε : 0 < resolveEps st coor emittance nemittance cs)
    (i j : Fin 7) (hi : i ∈ twissIdx coor) (hj : j ∈ twissJdx coor) :
    get_couple_idx
      (set_twiss_run st coor alpha beta rmssize emittance nemittance cs)
      i j cs = get_couple_idx st i j cs := by
  have hij : i ≠ j := twiss_disj coor j hj i hi
  have hrun : set_twiss_run st coor alpha beta rmssize emittance nemittance
      cs = { st with moment1 := (twissFinal st coor
        (resolveAlpha st coor alpha cs)
        (resolveBeta st coor beta rmssize
          (resolveEps st coor emittance nemittance cs) cs)
        (resolveEps st coor emittance nemittance cs) cs) } := by
    rw [set_twiss_run,
      set_twiss_eq st coor alpha beta rmssize emittance nemittance cs herr]
    rfl
  rw [hrun]
  set α := resolveAlpha st coor alpha cs with hα
  set β := resolveBeta st coor beta rmssize
    (resolveEps st coor emittance nemittance cs) cs with hβ'
  set ε := resolveEps st coor emittance nemittance cs with hε'
  -- locate the entries of the final tensor
  have hMjj : twissFinal st coor α β ε cs j j cs = st.moment1 j j cs :=
    twissFinal_jj st coor α β ε cs cs j hj
  have hMii_eq : twissFinal st coor α β ε cs i i cs =
      twissM4 st coor α β ε cs i i cs :=
    twissFinal_block st coor α β ε cs cs i i hi hi
  have hMii_pos : 0 < twissM4 st coor α β ε cs i i cs := by
    rcases twissIdx_cases coor i hi with rfl | rfl
    · exact (twissM4_aa st coor α β ε cs).symm ▸ mul_pos hβ hε
    · refine (twissM4_apap st coor α β ε cs).symm ▸ ?_
      have h1 : (0 : ℝ) < 1.0 + α * α := by nlinarith [mul_self_nonneg α]
      exact mul_pos (mul_pos (div_pos h1 hβ) hε) (twissK2_pos coor)
  have hM4jj : twissM4 st coor α β ε cs j j cs = st.moment1 j j cs :=
    twissM4_other st coor α β ε cs cs j j
      (fun hc => (jdx_ne_block coor j hj).1 hc.1)
      (fun hc => (jdx_ne_block coor j hj).1 hc.1)
      (fun hc => (jdx_ne_block coor j hj).2 hc.1)
      (fun hc => (jdx_ne_block coor j hj).2 hc.1)
  have hMij : twissFinal st coor α β ε cs i j cs =
      couple_term (fun a b => st.moment1 a b cs) i j *
        Real.sqrt (twissM4 st coor α β ε cs i i cs * st.moment1 j j cs) := by
    rw [twissFinal, reapply_hit _ _ _ _ _ _ _ (twiss_nodupI coor)
      (twiss_nodupJ coor) (twiss_disj coor) hi hj, hM4jj, momSlice_natCast]
  -- the captured value vanishes when the untouched diagonal is zero
  have hv : st.moment1 j j cs = 0 →
      couple_term (fun a b => st.moment1 a b cs) i j = 0 := by
    intro h0
    rw [couple_term]
    simp [h0]
  simp only [get_couple_idx, couple_index_i, if_neg hij, momSlice_natCast,
    Option.map_some']
  refine congrArg some ?_
  show (if Real.sqrt (twissFinal st coor α β ε cs i i cs *
      twissFinal st coor α β ε cs j j cs) ≠ 0 then
      twissFinal st coor α β ε cs i j cs /
        Real.sqrt (twissFinal st coor α β ε cs i i cs *
          twissFinal st coor α β ε cs j j cs) else 0) =
    couple_term (fun a b => st.moment1 a b cs) i j
  rw [hMii_eq, hMjj, hMij]
  exact couple_after _ _ _ hMii_pos (hdiag j) hv

theorem couple_term_eval (mat : Fin 7 → Fin 7 → ℝ) (c1 c2 : Fin 7) :
    couple_term mat c1 c2 =
      if Real.sqrt (mat c1 c1 * mat c2 c2) ≠ 0 then
        mat c1 c2 / Real.sqrt (mat c1 c1 * mat c2 c2) else 0 := rfl

/-- C2 counterexample: the claim quantifies over *every* successful
`set_twiss` call, but a successful call with `emittance=0` (and
`alpha=0, beta=1`) on a state with unit `x`/`y` variances and `x`-`y`
coupling `1/2` zeroes the edited diagonal, so the re-applied cross term
becomes `0` and the normalized coupling drops from `1/2` to `0`. -/
theorem C2_counterexample :
    get_couple_idx stCouple 0 2 0 = some (1 / 2) ∧
    (set_twiss stCouple .x (some 0) (some 1) none (some 0) none 0).isSome ∧
    get_couple_idx
      (set_twiss_run stCouple .x (some 0) (some 1) none (some 0) none 0)
      0 2 0 = some 0 := by
  have m00 : stCouple.moment1 0 0 0 = 1 := by simp +decide [stCouple]
  have m22 : stCouple.moment1 2 2 0 = 1 := by simp +decide [stCouple]
  have m02 : stCouple.moment1 0 2 0 = 1 / 2 := by simp +decide [stCouple]
  have ms : momSlice stCouple 0 = fun a b => stCouple.moment1 a b 0 := by
    rw [momSlice, if_neg (by decide)]
    rfl
  have herr : ¬((some (1 : ℝ)).isSome ∧ (none : Option ℝ).isSome) := by simp
  have hrun : set_twiss_run stCouple .x (some 0) (some 1) none (some 0) none
      0 = { stCouple with moment1 := twissFinal stCouple .x 0 1 0 0 } := by
    rw [set_twiss_run,
      set_twiss_eq stCouple .x (some 0) (some 1) none (some 0) none 0 herr]
    rfl
  have f00 : twissFinal stCouple .x 0 1 0 0 0 0 0 = 0 := by
    rw [twissFinal_block stCouple .x 0 1 0 0 0 0 0 (by decide) (by decide)]
    exact (twissM4_aa stCouple .x 0 1 0 0).trans (by norm_num)
  have f22 : twissFinal stCouple .x 0 1 0 0 2 2 0 = 1 := by
    rw [twissFinal_jj stCouple .x 0 1 0 0 0 2 (by decide)]
    exact m22
  have f02 : twissFinal stCouple .x 0 1 0 0 0 2 0 = 0 := by
    rw [twissFinal, reapply_hit _ _ _ _ _ _ _ (twiss_nodupI .x)
      (twiss_nodupJ .x) (twiss_disj .x) (by decide) (by decide)]
    have hM4 : twissM4 stCouple .x 0 1 0 0 0 0 0 = 0 :=
      (twissM4_aa stCouple .x 0 1 0 0).trans (by norm_num)
    rw [hM4, zero_mul, Real.sqrt_zero, mul_zero]
  refine ⟨?_, ?_, ?_⟩
  · simp only [get_couple_idx, couple_index_i]
    rw [if_neg (by decide)]
    simp only [Option.map_some']
    refine congrArg some ?_
    rw [ms, couple_term_eval]
    rw [m00, m22, m02, one_mul, Real.sqrt_one]
    norm_num
  · rw [set_twiss_eq stCouple .x (some 0) (some 1) none (some 0) none 0 herr]
    rfl
  · rw [hrun]
    simp only [get_couple_idx, couple_index_i]
    rw [if_neg (by decide)]
    simp only [Option.map_some']
    refine congrArg some ?_
    have ms' : momSlice
        { stCouple with moment1 := twissFinal stCouple .x 0 1 0 0 } 0 =
        fun a b => twissFinal stCouple .x 0 1 0 0 a b 0 := by
      rw [momSlice, if_neg (by decide)]
      rfl
    rw [ms', couple_term_eval]
    rw [f00, f22, f02, zero_mul, Real.sqrt_zero]
    simp

/-- Witness for the amended C2: a successful call with positive resolved
beta and emittance (`alpha=0, beta=1, emittance=1`) on the coupled state
preserves the normalized `x`-`y` coupling. -/
theorem C2_coupling_invariance_witness :
    get_couple_idx
      (set_twiss_run stCouple .x (some 0) (some 1) none (some 1) none 0)
      0 2 0 = get_couple_idx stCouple 0 2 0 :=
  C2_coupling_invariance stCouple .x (some 0) (some 1) none (some 1) none 0
    (by simp)
    (by intro k; fin_cases k <;> simp +decide [stCouple])
    (by norm_num [resolveBeta]) (by norm_num [resolveEps])
    0 2 (by decide) (by decide)

/-- C6 counterexample: `get_couple('x','x')` does *not* raise — the call
returns normally with `None` after logging an error (there is no `raise`
on this path), refuting the claim that equal coordinates raise a
caller-contract error.  (It indeed never produces a numeric value.) -/
theorem C6_counterexample :
    get_couple_call stZero "x".data "x".data 0 = .ret none ∧
    get_couple_call stZero "x".data "x".data 0 ≠ .exc := by
  have h1 : get_couple_call stZero "x".data "x".data 0 = .ret none := rfl
  exact ⟨h1, by rw [h1]; exact fun hc => PyCallResult.noConfusion hc⟩

/-- C6 (amended): calling `get_couple` with two equal valid coordinate
labels logs a caller-contract error and returns `None` — a normal return,
not an exception, and never a numeric coupling value (in particular not a
silent `0.0`). -/
theorem C6_equal_coords_error (st : BeamState) (c : PyS) (cs : ℤ)
    (hc : (List.lookup c crd).isSome) :
    get_couple_call st c c cs = .ret none := by
  obtain ⟨v, hv⟩ := Option.isSome_iff_exists.mp hc
  simp [get_couple_call, get_couple, couple_index_s, hv]

/-- Witness for the amended C6 at the concrete label `'y'`. -/
theorem C6_equal_coords_error_witness :
    get_couple_call stZero "y".data "y".data 3 = .ret none :=
  C6_equal_coords_error stZero "y".data 3 (by decide)

/-- C7: for a valid pair of distinct coordinates resolving to tensor
indices `(a, b)` and a valid charge state, `get_couple` returns
`T[a,b]/sqrt(T[a,a]*T[b,b])`, and returns exactly `0.0` whenever the
denominator `sqrt(T[a,a]*T[b,b])` is `0.0` (the guarded division). -/
theorem C7_couple_zero_guard (st : BeamState) (c1 c2 : PyS) (a b : Fin 7)
    (h : couple_index_s c1 c2 = some (a, b)) (cs : ℕ) (hcs : cs < st.nCS) :
    (Real.sqrt (st.moment1 a a cs * st.moment1 b b cs) = 0 →
      get_couple st c1 c2 cs = some 0) ∧
    (Real.sqrt (st.moment1 a a cs * st.moment1 b b cs) ≠ 0 →
      get_couple st c1 c2 cs = some (st.moment1 a b cs /
        Real.sqrt (st.moment1 a a cs * st.moment1 b b cs))) := by
  rw [get_couple, h, Option.map_some']
  rw [momSlice_natCast, couple_term_eval]
  constructor
  · intro hz
    rw [hz]
    simp
  · intro hnz
    rw [if_pos hnz]

/-- Witness for C7: on the all-zero state the denominator is `0` and the
coupling accessor returns exactly `0.0`. -/
theorem C7_couple_zero_guard_witness :
    get_couple stZero "x".data "y".data 0 = some 0 :=
  (C7_couple_zero_guard stZero "x".data "y".data 0 2 (by decide) 0
    (by decide)).1
    (by simp [stZero])

/-- C8: supplying both `beta` and `rmssize` to `set_twiss` is an input
error: the call reports it (logged) and returns `None` before any write,
so the correlation tensor — indeed the whole state — is unchanged. -/
theorem C8_beta_rmssize_error (st : BeamState) (coor : TCoor)
    (alpha emittance nemittance : Option ℝ) (b r : ℝ) (cs : ℕ) :
    set_twiss st coor alpha (some b) (some r) emittance nemittance cs =
      none ∧
    set_twiss_run st coor alpha (some b) (some r) emittance nemittance cs =
      st :=
  ⟨rfl, rfl⟩

/-- C10: for distinct coordinates, `set_couple(c1, c2, v)` followed by
`get_couple(c1, c2)` returns exactly `v` when the diagonal product
`T[c1,c1]*T[c2,c2]` is strictly positive (the normalization cancels), and
when that product is `0` the requested value is discarded: both cross
terms are stored as `0`. -/
theorem C10_set_get_couple (st : BeamState) (c1 c2 : Fin 7) (hne : c1 ≠ c2)
    (v : ℝ) (cs : ℕ) (hcs : cs < st.nCS) :
    (0 < st.moment1 c1 c1 cs * st.moment1 c2 c2 cs →
      ∃ st', set_couple st c1 c2 v cs = some st' ∧
        get_couple_idx st' c1 c2 cs = some v) ∧
    (st.moment1 c1 c1 cs * st.moment1 c2 c2 cs = 0 →
      ∃ st', set_couple st c1 c2 v cs = some st' ∧
        st'.moment1 c1 c2 cs = 0 ∧ st'.moment1 c2 c1 cs = 0) := by
  have hset : set_couple st c1 c2 v cs = some
      { st with moment1 := set_couple_mat st.moment1 c1 c2 v cs } := by
    rw [set_couple, couple_index_i, if_neg hne]
  have hd11 : set_couple_mat st.moment1 c1 c2 v cs c1 c1 cs =
      st.moment1 c1 c1 cs :=
    scm_other _ _ _ _ _ _ _ _ (fun hc => hne hc.2.1)
      (fun hc => hne hc.1)
  have hd22 : set_couple_mat st.moment1 c1 c2 v cs c2 c2 cs =
      st.moment1 c2 c2 cs :=
    scm_other _ _ _ _ _ _ _ _ (fun hc => hne hc.1.symm)
      (fun hc => hne hc.2.1.symm)
  have h12 : set_couple_mat st.moment1 c1 c2 v cs c1 c2 cs =
      v * Real.sqrt (st.moment1 c1 c1 cs * st.moment1 c2 c2 cs) :=
    scm_hit _ _ _ _ _ hne
  have h21 : set_couple_mat st.moment1 c1 c2 v cs c2 c1 cs =
      v * Real.sqrt (st.moment1 c1 c1 cs * st.moment1 c2 c2 cs) :=
    upd3_same _ _ _ _ _
  constructor
  · intro hpos
    refine ⟨_, hset, ?_⟩
    rw [get_couple_idx, couple_index_i, if_neg hne, Option.map_some']
    refine congrArg some ?_
    rw [momSlice_natCast]
    show (if Real.sqrt (set_couple_mat st.moment1 c1 c2 v cs c1 c1 cs *
        set_couple_mat st.moment1 c1 c2 v cs c2 c2 cs) ≠ 0 then
        set_couple_mat st.moment1 c1 c2 v cs c1 c2 cs /
          Real.sqrt (set_couple_mat st.moment1 c1 c2 v cs c1 c1 cs *
            set_couple_mat st.moment1 c1 c2 v cs c2 c2 cs) else 0) = v
    rw [hd11, hd22, h12]
    have hne0 : Real.sqrt (st.moment1 c1 c1 cs * st.moment1 c2 c2 cs) ≠ 0 :=
      (Real.sqrt_pos.mpr hpos).ne'
    rw [if_pos hne0, mul_div_cancel_right₀ v hne0]
  · intro hz
    refine ⟨_, hset, ?_⟩
    show set_couple_mat st.moment1 c1 c2 v cs c1 c2 cs = 0 ∧
      set_couple_mat st.moment1 c1 c2 v cs c2 c1 cs = 0
    rw [h12, h21, hz, Real.sqrt_zero, mul_zero]
    exact ⟨rfl, rfl⟩

/-- Witness for C10 on the concrete coupled state: the `x`-`y` diagonal
product is `1 > 0` and the round trip recovers `v = 1/3`. -/
theorem C10_set_get_couple_witness :
    ∃ st', set_couple stCouple 0 2 (1 / 3) 0 = some st' ∧
      get_couple_idx st' 0 2 0 = some (1 / 3) :=
  (C10_set_get_couple stCouple 0 2 (by decide) (1 / 3) 0 (by decide)).1
    (by simp +decide [stCouple])

/-- C5 counterexample: `('xeps', 'xemittance')` is an alias pair, but
`xemittance` is a read-only property (no `@xemittance.setter`), so
assigning through the alias (`bs.xeps = v`) raises `AttributeError`
instead of storing `v` — refuting "setting `a` to `v` followed by reading
`b` yields `v`" for every alias pair. -/
theorem C5_counterexample :
    ("xeps".data, "xemittance".data) ∈ bmAliases ∧
    bmClassDict.map (fun d => setBeamAttrOutcome d "xeps".data) =
      some PyCallResult.exc := by
  decide

/-- C5 (amended): the decorator succeeds, and every alias name resolves —
once, at class-definition time — to the very same property object as its
canonical target (both in the decorated dict and against the original
class body), so reading or writing an alias is observably identical to
reading or writing its target: reads return identical objects, and writes
through either name run the same setter, or raise `AttributeError`
identically when the target is read-only. -/
theorem C5_alias_identity :
    bmClassDict ≠ none ∧
    ∀ p ∈ bmAliases,
      List.lookup p.1 (bmClassDict.getD []) =
        List.lookup p.2 bmPropertyDict ∧
      List.lookup p.1 (bmClassDict.getD []) =
        List.lookup p.2 (bmClassDict.getD []) := by
  decide

/-- Witness for the amended C5 at the concrete pair
`('cxy', 'couple_xy')`. -/
theorem C5_alias_identity_witness :
    List.lookup "cxy".data (bmClassDict.getD []) =
      List.lookup "couple_xy".data bmPropertyDict :=
  (C5_alias_identity.2 ("cxy".data, "couple_xy".data) (by decide)).1

theorem writeAll_cons (kv : PyS × PVal) (t : List (PyS × PVal)) (m : PMap) :
    writeAll (kv :: t) m = writeAll t (pset m kv.1 kv.2) := rfl

/-- A key no write in `L` targets reads through `writeAll L`. -/
theorem writeAll_notin (L : List (PyS × PVal)) (m : PMap) (k : PyS)
    (hk : ∀ kv ∈ L, kv.1 ≠ k) : writeAll L m k = m k := by
  induction L generalizing m with
  | nil => rfl
  | cons kv t ih =>
    rw [writeAll_cons, ih _ fun kv' h => hk kv' (List.mem_cons_of_mem _ h)]
    exact if_neg fun h => hk kv (List.mem_cons_self kv t) h.symm

/-- A key some write in `L` targets reads the same through `writeAll L`
whatever the base map. -/
theorem writeAll_indep (L : List (PyS × PVal)) (m m' : PMap) (k : PyS)
    (hk : k ∈ L.map Prod.fst) : writeAll L m k = writeAll L m' k := by
  induction L generalizing m m' with
  | nil => simp at hk
  | cons kv t ih =>
    rw [writeAll_cons, writeAll_cons]
    by_cases ht : k ∈ t.map Prod.fst
    · exact ih _ _ ht
    · have hnt : ∀ kv' ∈ t, kv'.1 ≠ k := fun kv' hkv' he =>
        ht (List.mem_map.mpr ⟨kv', hkv', he⟩)
      have hkv : k = kv.1 := by
        rcases List.mem_map.mp hk with ⟨x, hx, hxe⟩
        rcases List.mem_cons.mp hx with rfl | hxt
        · exact hxe.symm
        · exact absurd (List.mem_map.mpr ⟨x, hxt, hxe⟩) ht
      rw [writeAll_notin t _ k hnt, writeAll_notin t _ k hnt, pset, pset,
        if_pos hkv, if_pos hkv]

theorem natStr_last (n : ℕ) :
    ∃ d, d < 10 ∧ (natStr n).getLast? = some (Nat.digitChar d) := by
  rw [natStr]
  split
  · next h => exact ⟨n, h, rfl⟩
  · exact ⟨n % 10, Nat.mod_lt _ (by omega), List.getLast?_concat _⟩

theorem digitChar_ne_e (d : ℕ) (hd : d < 10) : Nat.digitChar d ≠ 'e' := by
  interval_cases d <;> decide

/-- A decimal-index-suffixed key never collides with the metadata keys
`'vector_variable'`/`'matrix_variable'` (their last character is a
letter, not a digit). -/
theorem append_natStr_ne (pfx : PyS) (i : ℕ) :
    pfx ++ natStr i ≠ "vector_variable".data ∧
    pfx ++ natStr i ≠ "matrix_variable".data := by
  obtain ⟨d, hd, hlast⟩ := natStr_last i
  have hlast2 : (pfx ++ natStr i).getLast? = some (Nat.digitChar d) := by
    rw [List.getLast?_append, hlast]
    rfl
  constructor <;> intro he <;> rw [he] at hlast2
  · have h'e : some 'e' = some (Nat.digitChar d) := hlast2
    exact digitChar_ne_e d hd (Option.some.inj h'e).symm
  · have h'e : some 'e' = some (Nat.digitChar d) := hlast2
    exact digitChar_ne_e d hd (Option.some.inj h'e).symm

theorem kmWrites_keys_ne (st : BeamState) :
    ∀ kv ∈ kmWrites st, kv.1 ≠ "vector_variable".data ∧
      kv.1 ≠ "matrix_variable".data := by
  intro kv hkv
  simp only [kmWrites, List.mem_cons, List.not_mem_nil, or_false] at hkv
  rcases hkv with rfl | rfl | rfl | rfl
  · exact ⟨(by decide : "IonChargeStates".data ≠ "vector_variable".data),
      (by decide : "IonChargeStates".data ≠ "matrix_variable".data)⟩
  · exact ⟨(by decide : "IonEk".data ≠ "vector_variable".data),
      (by decide : "IonEk".data ≠ "matrix_variable".data)⟩
  · exact ⟨(by decide : "IonEs".data ≠ "vector_variable".data),
      (by decide : "IonEs".data ≠ "matrix_variable".data)⟩
  · exact ⟨(by decide : "NCharge".data ≠ "vector_variable".data),
      (by decide : "NCharge".data ≠ "matrix_variable".data)⟩

theorem csWrites_keys_ne (st : BeamState) (p s : PyS) :
    ∀ kv ∈ csWrites st p s, kv.1 ≠ "vector_variable".data ∧
      kv.1 ≠ "matrix_variable".data := by
  intro kv hkv
  rw [csWrites, List.mem_flatMap] at hkv
  obtain ⟨i, _, hkv⟩ := hkv
  simp only [List.mem_cons, List.not_mem_nil, or_false] at hkv
  rcases hkv with rfl | rfl
  · exact append_natStr_ne p i
  · exact append_natStr_ne s i

/-- Core of C9: one application of the `generate_source` write sequence to
an explicit configuration is idempotent. -/
theorem source_idem_core (st : BeamState) (idx : ℕ) (prop0 : PMap) :
    generate_source st (some (generate_source st (some ⟨idx, prop0⟩))) =
      generate_source st (some ⟨idx, prop0⟩) := by
  have h1 : generate_source st (some ⟨idx, prop0⟩) =
      ⟨idx, writeAll (csWrites st
        (pyFormatVal (writeAll (kmWrites st) prop0 "vector_variable".data))
        (pyFormatVal (writeAll (kmWrites st) prop0 "matrix_variable".data)))
        (writeAll (kmWrites st) prop0)⟩ := rfl
  rw [h1]
  have hvv : writeAll (kmWrites st) (writeAll (csWrites st
      (pyFormatVal (writeAll (kmWrites st) prop0 "vector_variable".data))
      (pyFormatVal (writeAll (kmWrites st) prop0 "matrix_variable".data)))
      (writeAll (kmWrites st) prop0)) "vector_variable".data =
      writeAll (kmWrites st) prop0 "vector_variable".data := by
    rw [writeAll_notin _ _ _ fun kv h => (kmWrites_keys_ne st kv h).1]
    exact writeAll_notin _ _ _ fun kv h => (csWrites_keys_ne st _ _ kv h).1
  have hmv : writeAll (kmWrites st) (writeAll (csWrites st
      (pyFormatVal (writeAll (kmWrites st) prop0 "vector_variable".data))
      (pyFormatVal (writeAll (kmWrites st) prop0 "matrix_variable".data)))
      (writeAll (kmWrites st) prop0)) "matrix_variable".data =
      writeAll (kmWrites st) prop0 "matrix_variable".data := by
    rw [writeAll_notin _ _ _ fun kv h => (kmWrites_keys_ne st kv h).2]
    exact writeAll_notin _ _ _ fun kv h => (csWrites_keys_ne st _ _ kv h).2
  have h2 : ∀ P : PMap, generate_source st (some ⟨idx, P⟩) =
      ⟨idx, writeAll (csWrites st
        (pyFormatVal (writeAll (kmWrites st) P "vector_variable".data))
        (pyFormatVal (writeAll (kmWrites st) P "matrix_variable".data)))
        (writeAll (kmWrites st) P)⟩ := fun P => rfl
  rw [h2, hvv, hmv]
  refine congrArg (SConf.mk idx) ?_
  funext k
  by_cases hc : k ∈ (csWrites st
      (pyFormatVal (writeAll (kmWrites st) prop0 "vector_variable".data))
      (pyFormatVal (writeAll (kmWrites st) prop0
        "matrix_variable".data))).map Prod.fst
  · exact writeAll_indep _ _ _ k hc
  · have hcs' : ∀ kv ∈ csWrites st
        (pyFormatVal (writeAll (kmWrites st) prop0 "vector_variable".data))
        (pyFormatVal (writeAll (kmWrites st) prop0 "matrix_variable".data)),
        kv.1 ≠ k := fun kv hkv he => hc (List.mem_map.mpr ⟨kv, hkv, he⟩)
    rw [writeAll_notin _ _ _ hcs', writeAll_notin _ _ _ hcs']
    by_cases hk : k ∈ (kmWrites st).map Prod.fst
    · exact writeAll_indep _ _ _ k hk
    · have hkm' : ∀ kv ∈ kmWrites st, kv.1 ≠ k := fun kv hkv he =>
        hk (List.mem_map.mpr ⟨kv, hkv, he⟩)
      rw [writeAll_notin _ _ _ hkm', writeAll_notin _ _ _ hkm',
        writeAll_notin _ _ _ hcs', writeAll_notin _ _ _ hkm']

/-- C9: source encoding is idempotent — applying `generate_source(state,
sconf)` a second time to its own output (same state, same property map)
rewrites every field it touches with identical values, leaving the
configuration unchanged. -/
theorem C9_source_idempotent (st : BeamState) (sconf : Option SConf) :
    generate_source st (some (generate_source st sconf)) =
      generate_source st sconf := by
  cases sconf with
  | none =>
    have h0 : generate_source st none =
        generate_source st (some ⟨0, defaultSrcProps⟩) := rfl
    rw [h0]
    exact source_idem_core st 0 defaultSrcProps
  | some c =>
    have hc : (⟨c.index, c.properties⟩ : SConf) = c := rfl
    rw [← hc]
    exact source_idem_core st c.index c.properties

/-- C4 counterexample: on a one-element machine, `get_element(index=[0],
type='q')` supplies a type filter with no matches anywhere, yet the query
returns element `0` instead of the empty result the claim requires —
`get_intersection` skips empty match lists instead of propagating them. -/
theorem C4_counterexample :
    get_element_indices machineOne (some [0]) none (some ["q".data])
      none = {0} ∧
    get_element_indices machineOne (some [0]) none (some ["q".data])
      none ≠ (∅ : Finset ℕ) := by
  decide

/-- C4 (amended): an unsupplied filter contributes no constraint, and a
supplied filter whose match set is empty is *ignored* exactly like an
unsupplied one (it does not force an empty result); when the supplied
filters all have matches, the result is their left-to-right fold in which
each match set is intersected with the accumulated set — equal to the
plain set intersection whenever every intermediate intersection is
nonempty (an empty intermediate intersection instead restarts the
accumulator by union). -/
theorem C4_filter_semantics :
    (∀ (m : Machine) (index : Option (List ℕ)) (name : Option (List PyS))
        (patt : Option (PyS → Bool)) (ts : List PyS),
      ts.flatMap (findByType m) = [] →
      get_element_indices m index name (some ts) patt =
        get_element_indices m index name none patt) ∧
    (∀ a b c : List ℕ, a ≠ [] → b ≠ [] → c ≠ [] →
      a.toFinset ∩ b.toFinset ≠ ∅ →
      get_intersection [a, b, c] =
        a.toFinset ∩ b.toFinset ∩ c.toFinset) := by
  constructor
  · intro m index name patt ts h
    simp only [get_element_indices, Option.getD_some, Option.getD_none, h]
    rfl
  · intro a b c ha hb hc hab
    simp only [get_intersection, List.foldl_cons, List.foldl_nil]
    rw [if_pos (Or.inl trivial), Finset.empty_union,
      if_neg (not_or.mpr
        ⟨fun he => ha ((List.toFinset_eq_empty_iff a).mp he), hb⟩),
      if_neg (not_or.mpr ⟨hab, hc⟩)]

/-- Witness for the amended C4 at the docstring example
`a, b, c = [1,2], [2], [2,3]` (all nonempty, all intersections
nonempty). -/
theorem C4_filter_semantics_witness :
    get_intersection [[1, 2], [2], [2, 3]] =
      ([1, 2] : List ℕ).toFinset ∩ ([2] : List ℕ).toFinset ∩
        ([2, 3] : List ℕ).toFinset :=
  C4_filter_semantics.2 [1, 2] [2] [2, 3] (by decide) (by decide)
    (by decide) (by decide)

/-- A line ending in a newline is its stripped form plus `'\n'`. -/
theorem chop_newline (l : PyS) (h1 : l ≠ [])
    (h2 : l.getLast? = some '\n') : l.dropLast ++ ['\n'] = l := by
  have h3 := List.dropLast_append_getLast h1
  have h4 : l.getLast h1 = '\n' := by
    rw [List.getLast?_eq_getLast l h1] at h2
    exact Option.some.inj h2
  rw [h4] at h3
  exact h3

/-- A line the scanner does not recognize is emitted verbatim minus its
final character, and the cursor advances one line. -/
theorem patchScan_cons_unrec (ctx : PatchCtx) (l : PyS) (t : List PyS)
    (hr : recognizedLine ctx l = false) :
    patchScan ctx (l :: t) = l.dropLast :: patchScan ctx t := by
  show patchScanGo ctx (t.length + 1) (l :: t) = _
  by_cases hb : blankOrComment l
  · simp only [patchScanGo, if_pos hb]
    rfl
  · have hbf : blankOrComment l = false := by
      cases hbc : blankOrComment l
      · rfl
      · exact absurd hbc hb
    have hcls : classify ctx l.dropLast = none := by
      cases h : classify ctx l.dropLast with
      | none => rfl
      | some v =>
        simp [recognizedLine, hbf, h] at hr
    simp only [patchScanGo, if_neg hb, hcls]
    rfl

/-- `'\n'.join` of the stripped lines, plus a final newline, restores a
newline-terminated file. -/
theorem renderOut_chop (ls : List PyS) (hne : ls ≠ [])
    (h : ∀ l ∈ ls, l ≠ [] ∧ l.getLast? = some '\n') :
    renderOut (ls.map List.dropLast) ++ ['\n'] = ls.flatten := by
  induction ls with
  | nil => exact absurd rfl hne
  | cons l t ih =>
    cases t with
    | nil =>
      obtain ⟨hl1, hl2⟩ := h l (List.mem_cons_self l [])
      simp only [List.map_cons, List.map_nil, renderOut, List.flatten]
      rw [chop_newline l hl1 hl2]
      simp
    | cons l2 t2 =>
      obtain ⟨hl1, hl2⟩ := h l (List.mem_cons_self l (l2 :: t2))
      have hr : renderOut (l.dropLast :: (l2 :: t2).map List.dropLast) =
          l.dropLast ++ '\n' :: renderOut ((l2 :: t2).map List.dropLast) :=
        rfl
      simp only [List.map_cons] at hr ⊢
      rw [hr]
      have ht := ih (by simp) fun x hx => h x (List.mem_cons_of_mem _ hx)
      simp only [List.map_cons] at ht
      show (l.dropLast ++ '\n' ::
        renderOut (l2.dropLast :: t2.map List.dropLast)) ++ ['\n'] =
        (l :: l2 :: t2).flatten
      rw [List.append_assoc]
      have : ('\n' :: renderOut (l2.dropLast :: t2.map List.dropLast)) ++
          ['\n'] = '\n' :: (l2 :: t2).flatten := by
        rw [List.cons_append, ht]
      rw [this, List.flatten_cons, ← chop_newline l hl1 hl2]
      simp

/-- C3 (amended): on an original whose every line is newline-terminated,
if no line is recognized as an assignment of a live source/header
property or as a declaration of a live element name, every line passes
through byte-identical up to its stripped trailing newline, and the
stream output path (which appends the final newline) reproduces the file
byte-for-byte.  (As frozen, the claim also covers files whose last line
lacks a trailing newline; there the scanner unconditionally strips the
final character — see the counterexample.) -/
theorem C3_patch_noop (ctx : PatchCtx) (fline : List PyS)
    (hnl : ∀ l ∈ fline, l ≠ [] ∧ l.getLast? = some '\n')
    (hnr : ∀ l ∈ fline, recognizedLine ctx l = false) :
    patchScan ctx fline = fline.map List.dropLast ∧
    (fline ≠ [] →
      renderOut (patchScan ctx fline) ++ ['\n'] = fline.flatten) := by
  have h1 : patchScan ctx fline = fline.map List.dropLast := by
    induction fline with
    | nil => rfl
    | cons l t ih =>
      rw [patchScan_cons_unrec ctx l t (hnr l (List.mem_cons_self l t)),
        ih (fun x hx => hnl x (List.mem_cons_of_mem _ hx))
          (fun x hx => hnr x (List.mem_cons_of_mem _ hx)),
        List.map_cons]
  refine ⟨h1, fun hne => ?_⟩
  rw [h1]
  exact renderOut_chop fline hne hnl

/-- C3 counterexample: a file whose single line `"abc"` lacks a trailing
newline has an empty patchable region (no live keys or names at all), yet
the scanner strips the final `'c'`: the output is `"ab"` on the file
path and `"ab\n"` on the stream path, neither byte-identical to the
original. -/
theorem C3_counterexample :
    patchScan ctxEmpty ["abc".data] = ["ab".data] ∧
    renderOut (patchScan ctxEmpty ["abc".data]) ≠ "abc".data ∧
    renderOut (patchScan ctxEmpty ["abc".data]) ++ ['\n'] ≠ "abc".data := by
  decide

/-- Witness for the amended C3 on a concrete three-line original (a bare
word, a comment, and an assignment whose key is not live): the stream
output reproduces the file exactly. -/
theorem C3_patch_noop_witness :
    renderOut (patchScan ctxEmpty
      ["a\n".data, "# c\n".data, "b = 1\n".data]) ++ ['\n'] =
      (["a\n".data, "# c\n".data, "b = 1\n".data] : List PyS).flatten :=
  (C3_patch_noop ctxEmpty ["a\n".data, "# c\n".data, "b = 1\n".data]
    (by decide) (by decide)).2 (by decide)

end FlameUtils
